import Mathlib

/-!
# Agent JobSearch — verification of the specification against the code

The repository is a Next.js frontend plus a FastAPI backend.  The snapshot at
hand contains the frontend sources (`AgentProgressWidget.tsx`,
`UploadWidget.tsx`, report page) and the README; the Python backend services
(`langgraph_agent.py`, `rag_engine.py`, `llm_scorer.py`) are referenced by the
README but their code is not part of the snapshot, so the orchestration loop,
the retrieval engine, the scoring engine and the progress publisher are
modelled from the specification.  The frontend components are embedded
directly from their TypeScript sources.
-/

namespace AgentJobSearch

/-! ## Data model -/

/-- A job record as extracted by the browsing loop (spec §3 `JobRecord`,
frontend `ScoredJob.job` shape in the report page). -/
structure JobRecord where
  id : String
  title : String
  company : String
  location : String
  salary : Option String
  postedTime : String
  description : String
  url : String
  deriving Repr, DecidableEq

/-- Modelled from the spec: `ScoredJob` (spec §3) — a `JobRecord` plus the four
sub-scores produced by the Scoring Engine (`llm_scorer.py`, not in the
snapshot), the weighted composite, and a natural-language rationale.  Field
names follow the frontend's `ScoredJob` interface (`skill_match`,
`experience_match`, `education_match`, `overall_score`, `analysis`). -/
structure ScoredJob where
  job : JobRecord
  skillMatch : ℚ
  experienceMatch : ℚ
  educationMatch : ℚ
  overallSub : ℚ
  overallScore : ℚ
  analysis : String
  deriving Repr, DecidableEq

/-- Modelled from the spec: the Scoring Engine's composite (spec §4.8,
`llm_scorer.py` not in the snapshot): "Composite = weighted sum using fixed
weights \x7bskills: 0.4, experience: 0.3, education: 0.2, overall: 0.1\x7d,
normalized to a 0–100 scale", the sub-scores living on a 0–10 scale. -/
def compositeScore (skills experience education overall : ℚ) : ℚ :=
  ((4 / 10) * skills + (3 / 10) * experience + (2 / 10) * education
    + (1 / 10) * overall) * 10

/-- Modelled from the spec: how the Scoring Engine assembles a `ScoredJob`
from a retrieved record and the four GPT-4 sub-scores (spec §4.8). -/
def mkScoredJob (j : JobRecord) (skills experience education overall : ℚ)
    (analysis : String) : ScoredJob :=
  { job := j
    skillMatch := skills
    experienceMatch := experience
    educationMatch := education
    overallSub := overall
    overallScore := compositeScore skills experience education overall
    analysis := analysis }

/-! ## Ranking

Both the Scoring Engine (composite desc, ties by skills) and the Retrieval
Engine (similarity desc, ties by recency) order by a primary rational key
descending with a secondary rational key breaking ties, so we set the order
up once, parametrised by the two key functions. -/

/-- Descending order on the primary key `f`, ties broken by the secondary key
`g` (also descending). -/
def keyRank {α : Type} (f g : α → ℚ) (a b : α) : Prop :=
  f b < f a ∨ (f a = f b ∧ g b ≤ g a)

instance {α : Type} (f g : α → ℚ) : DecidableRel (keyRank f g) := fun _ _ =>
  inferInstanceAs (Decidable (_ ∨ _))

instance {α : Type} (f g : α → ℚ) : IsTotal α (keyRank f g) where
  total a b := by
    rcases lt_trichotomy (f a) (f b) with h | h | h
    · exact Or.inr (Or.inl h)
    · rcases le_total (g a) (g b) with hg | hg
      · exact Or.inr (Or.inr ⟨h.symm, hg⟩)
      · exact Or.inl (Or.inr ⟨h, hg⟩)
    · exact Or.inl (Or.inl h)

instance {α : Type} (f g : α → ℚ) : IsTrans α (keyRank f g) where
  trans a b c hab hbc := by
    rcases hab with hab | ⟨hab, hg1⟩
    · rcases hbc with hbc | ⟨hbc, _⟩
      · exact Or.inl (hbc.trans hab)
      · exact Or.inl (hbc ▸ hab)
    · rcases hbc with hbc | ⟨hbc, hg2⟩
      · exact Or.inl (hab ▸ hbc)
      · exact Or.inr ⟨hab.trans hbc, hg2.trans hg1⟩

/-- Modelled from the spec: the `ScoredJob` ordering key (spec §3): composite
score, descending, ties broken by the skills-dimension score. -/
abbrev scoredJobRank : ScoredJob → ScoredJob → Prop :=
  keyRank ScoredJob.overallScore ScoredJob.skillMatch

/-- Modelled from the spec: the Scoring Engine's final output (spec §4.8,
`llm_scorer.py` not in the snapshot): "ordered sequence of ScoredJob,
truncated to the configured top-N (default 10)". -/
def rankJobs (jobs : List ScoredJob) (topN : Nat) : List ScoredJob :=
  (List.insertionSort scoredJobRank jobs).take topN

/-! ## Retrieval Engine -/

/-- Modelled from the spec: one entry of the per-run vector index (spec §4.7,
`rag_engine.py` not in the snapshot): a record identifier, its cosine
similarity to the résumé embedding (computed by the Vector Index Capability),
and the posting recency used for tie-breaking. -/
structure IndexEntry where
  id : String
  similarity : ℚ
  recency : ℚ
  deriving Repr, DecidableEq

/-- Modelled from the spec: the ordering of retrieval results (spec §4.7):
similarity descending, "ties broken by more recent posting recency". -/
abbrev similarityRank : IndexEntry → IndexEntry → Prop :=
  keyRank IndexEntry.similarity IndexEntry.recency

/-- Modelled from the spec: the Retrieval Engine's top-K query against the
run's index (spec §4.7, `rag_engine.py` not in the snapshot): rank the stored
embeddings by cosine similarity to the résumé embedding and keep the best
`k`; an empty result is an ordinary value, not an error. -/
def queryIndex (entries : List IndexEntry) (k : Nat) : List IndexEntry :=
  (List.insertionSort similarityRank entries).take k

/-! ## Orchestrator: the Analyzer↔Validator feedback loop

The LangGraph state machine (`langgraph_agent.py`) is not part of the
snapshot; the loop is modelled from spec §4.2/§4.6: on a
`SelectorValidationFailure` the Orchestrator re-invokes the Analyzer,
bounded by a maximum re-analysis count, and every recoverable failure emits
a ProgressEvent at an error-adjacent status before the retry.  The behaviour
of the page and the LLM on the `i`-th analysis+validation attempt is
abstracted as an oracle `attemptOK : Nat → Bool`. -/

/-- Terminal outcome of one orchestrated run (spec §4.6). -/
inductive RunOutcome where
  | done
  | failed
  deriving Repr, DecidableEq

/-- Modelled from the spec: the ProgressEvents the re-analysis loop can emit —
an error-adjacent event naming the failed attempt (spec §7), or the
distinguished terminal event carrying either the final ranked `ScoredJob`
list or a terminal error descriptor (spec §6). -/
inductive PEvent where
  | selectorError (attempt : Nat)
  | terminalDone (results : List ScoredJob)
  | terminalFailed (msg : String)
  deriving Repr, DecidableEq

/-- Whether an event is the distinguished terminal event. -/
def PEvent.isTerminal : PEvent → Bool
  | .selectorError _ => false
  | .terminalDone _ => true
  | .terminalFailed _ => true

/-- Modelled from the spec: the event trace of the Analyzer↔Validator loop
(`langgraph_agent.py` not in the snapshot).  Arguments: the attempt oracle,
the final results for the success case, the current attempt index, and the
remaining re-analysis budget.  A failed attempt with budget left emits the
error-adjacent event and retries; a failed attempt with the budget exhausted
emits the terminal failure; success emits the terminal result. -/
def analyzeValidateTrace (attemptOK : Nat → Bool) (results : List ScoredJob) :
    Nat → Nat → List PEvent
  | i, 0 =>
      if attemptOK i then [.terminalDone results]
      else [.terminalFailed "selector validation failed"]
  | i, b + 1 =>
      if attemptOK i then [.terminalDone results]
      else .selectorError i :: analyzeValidateTrace attemptOK results (i + 1) b

/-- Modelled from the spec: outcome and number of Analyzer re-invocations of
the re-analysis loop (spec §4.2: bounded by a maximum re-analysis count;
spec §8: exactly `maxReanalysis` failures then a success must yield `Done`).
Arguments: attempt oracle, current attempt index, remaining budget; returns
the terminal outcome and how many re-invocations were performed. -/
def reanalysisOutcome (attemptOK : Nat → Bool) : Nat → Nat → RunOutcome × Nat
  | i, 0 => (if attemptOK i then .done else .failed, 0)
  | i, b + 1 =>
      if attemptOK i then (.done, 0)
      else
        let r := reanalysisOutcome attemptOK (i + 1) b
        (r.1, r.2 + 1)

/-! ## Pagination Controller -/

/-- Modelled from the spec: the browsing loop over pages
(`pagination_handler` node of `langgraph_agent.py`, not in the snapshot;
spec §4.5): process the current page, then stop when the configured maximum
number of pages is reached, when the page reports no further "next" control,
or when zero new records were accepted two pages in a row; otherwise
navigate and continue.  `hasNext p` is what the page reports for page `p`,
`accepted p` the number of newly accepted records on page `p`; the third
argument is the zero-yield streak and the last the number of pages the
configured maximum still allows.  Returns the number of pages processed. -/
def browseLoop (hasNext : Nat → Bool) (accepted : Nat → Nat) :
    Nat → Nat → Nat → Nat
  | _, _, 0 => 0
  | page, zeroStreak, budget + 1 =>
      let streak := if accepted page = 0 then zeroStreak + 1 else 0
      if hasNext page ∧ streak < 2 then
        1 + browseLoop hasNext accepted (page + 1) streak budget
      else 1

/-- Modelled from the spec: pages processed by one run's pagination loop,
starting at the first page with the full `maxPages` budget. -/
def pagesProcessed (hasNext : Nat → Bool) (accepted : Nat → Nat)
    (maxPages : Nat) : Nat :=
  browseLoop hasNext accepted 0 0 maxPages

/-! ## Progress Publisher -/

/-- Modelled from the spec: a `ProgressEvent` record (spec §3): run
identifier, monotonically increasing step ordinal, stage name, status, and
human-readable message. -/
structure OrdEvent where
  runId : String
  ordinal : Nat
  stage : String
  status : String
  message : String
  deriving Repr, DecidableEq

/-- Modelled from the spec: the Progress Publisher's state for one run — the
next ordinal to assign and the append-only event sequence (spec §3). -/
structure PublisherState where
  runId : String
  nextOrdinal : Nat
  events : List OrdEvent
  deriving Repr, DecidableEq

/-- Modelled from the spec: the publisher at the start of a run. -/
def initPublisher (runId : String) : PublisherState :=
  { runId := runId, nextOrdinal := 0, events := [] }

/-- Modelled from the spec: emitting one ProgressEvent (spec §3): the event
is appended with the current ordinal and the ordinal counter advances. -/
def emitEvent (s : PublisherState) (stage status message : String) :
    PublisherState :=
  { s with
    nextOrdinal := s.nextOrdinal + 1
    events := s.events ++
      [{ runId := s.runId, ordinal := s.nextOrdinal, stage := stage,
         status := status, message := message }] }

/-- Modelled from the spec: publishing a whole run's worth of
(stage, status, message) notifications in order. -/
def publishAll (s : PublisherState) :
    List (String × String × String) → PublisherState
  | [] => s
  | m :: ms => publishAll (emitEvent s m.1 m.2.1 m.2.2) ms

/-! ## Frontend: AgentProgressWidget (embedded from
`src/frontend/src/components/AgentProgressWidget.tsx`) -/

/-- Status of one task row (`AgentTask.status`). -/
inductive TaskStatus where
  | pending
  | processing
  | completed
  | error
  deriving Repr, DecidableEq

/-- The widget's React state: `progress`, `currentMessage`, the task list
statuses, the `error` state, and the `searchResults` value written to
`sessionStorage` by the `result` branch. -/
structure WidgetState where
  progress : Int
  currentMessage : String
  tasks : List TaskStatus
  error : Option String
  storedResults : Option String
  deriving Repr, DecidableEq

/-- The widget's initial state (`useState` initialisers: progress 0, message
"Initializing...", four pending tasks, no error). -/
def initWidget : WidgetState :=
  { progress := 0
    currentMessage := "Initializing..."
    tasks := [.pending, .pending, .pending, .pending]
    error := none
    storedResults := none }

/-- One parsed `data:` line of the SSE stream, as the `startSearch` loop
distinguishes them: the literal `[DONE]` marker, a `type = "result"` event
carrying its payload, or a progress update with optional `step`, `total`,
`status`, `message` fields (absent JSON fields are `none`; `status` compares
with string literals, so absence is modelled as `""`). -/
inductive SSEData where
  | done
  | result (data : String)
  | progressUpdate (step : Option Nat) (total : Option Nat) (status : String)
      (message : Option String)
  deriving Repr, DecidableEq

/-- JavaScript `v || d` on a number read from JSON: `undefined` and `0` are
falsy and replaced by the default. -/
def jsOrNat (v : Option Nat) (d : Nat) : Nat :=
  match v with
  | none => d
  | some 0 => d
  | some n => n

/-- JavaScript `v || d` on a string read from JSON: `undefined` and the empty
string are falsy and replaced by the default. -/
def jsOrStr (v : Option String) (d : String) : String :=
  match v with
  | none => d
  | some "" => d
  | some s => s

/-- `Math.round((step / total) * 100 - (parsed.status === "processing" ? 10 :
0))` with `step`/`total` already defaulted.  `Math.round` rounds half toward
positive infinity, as Mathlib's `round` does. -/
def newProgressOf (step total : Nat) (status : String) : Int :=
  round (((step : ℚ) / (total : ℚ)) * 100
    - (if status = "processing" then 10 else 0))

/-- The task-list update of the progress branch
(`AgentProgressWidget.tsx:122-139`): tasks before the current step become
`completed`; the task at the current step follows the event's status
(`completed`, `error`, otherwise `processing`); later tasks are unchanged.
The first argument is the zero-based index of the head of the remaining
list. -/
def updateTasks (step : Nat) (status : String) :
    Nat → List TaskStatus → List TaskStatus
  | _, [] => []
  | idx, t :: ts =>
      (if idx + 1 < step then .completed
       else if idx + 1 = step then
        (if status = "completed" then .completed
         else if status = "error" then .error
         else .processing)
       else t) :: updateTasks step status (idx + 1) ts

/-- Processing of one parsed SSE event by the `startSearch` loop
(`AgentProgressWidget.tsx:94-147`).  `captured` is the value of the
`progress` state variable captured by the effect's closure: the effect runs
once on mount, so every `Math.max(progress, newProgress)` inside the loop
reads that captured value, not the currently displayed one. -/
def stepWidget (captured : Int) (s : WidgetState) : SSEData → WidgetState
  | .done => s
  | .result data =>
      { s with
        storedResults := some data
        progress := 100
        tasks := s.tasks.map fun _ => .completed }
  | .progressUpdate step? total? status message? =>
      let step := jsOrNat step? 1
      let total := jsOrNat total? 4
      let newProgress := newProgressOf step total status
      let s1 := { s with
        progress := max captured newProgress
        currentMessage := jsOrStr message? "Processing..."
        tasks := updateTasks step status 0 s.tasks }
      if status = "error" then { s1 with error := message? } else s1

/-- The event loop of `startSearch` over the parsed `data:` lines, with the
closure-captured `progress` value threaded through: on the `[DONE]` marker
the function returns at once (navigation to `/report` is scheduled and no
further line is processed); every other line updates the widget state. -/
def processLines (captured : Int) (s : WidgetState) :
    List SSEData → WidgetState
  | [] => s
  | .done :: _ => s
  | e :: rest => processLines captured (stepWidget captured s e) rest

/-- `startSearch` as mounted: the effect runs with `progress = 0` captured in
its closure, starting from the widget's initial state. -/
def startSearch (events : List SSEData) : WidgetState :=
  processLines 0 initWidget events

/-! ## Frontend: UploadWidget (embedded from
`src/frontend/src/components/UploadWidget.tsx`) -/

/-- The relevant part of a browser `File`: its name and its size in bytes. -/
structure FileInfo where
  name : String
  size : Nat
  deriving Repr, DecidableEq

/-- `file.name.toLowerCase().endsWith(".pdf")` from `validatePDF`
(`UploadWidget.tsx:53`), embedded over the name's character list: lowercase
every character, then test whether `.pdf` is a suffix. -/
def lowercaseEndsWithPdf (name : String) : Bool :=
  ".pdf".data.isSuffixOf (name.data.map Char.toLower)

/-- `validatePDF` (`UploadWidget.tsx:52-62`): reject a file whose lowercased
name does not end in `.pdf`, reject a file larger than `10 * 1024 * 1024`
bytes, accept otherwise. -/
def validatePDF (f : FileInfo) : Bool :=
  if !(lowercaseEndsWithPdf f.name) then false
  else if f.size > 10 * 1024 * 1024 then false
  else true

/-- Status of an entry of the `files` state (`UploadedFile.status`). -/
inductive FileStatus where
  | uploading
  | success
  | error
  deriving Repr, DecidableEq

/-- An entry of the `files` state list (the random `id` is irrelevant to the
proved properties and omitted). -/
structure UploadedFile where
  name : String
  size : Nat
  status : FileStatus
  progress : Nat
  deriving Repr, DecidableEq

/-- `handleFileUpload` (`UploadWidget.tsx:87-142`) from call to settlement:
filter the incoming files through `validatePDF`; if none passes, return with
the `files` state unchanged; otherwise keep only the first valid file,
replace the list by that single entry, and send exactly that file to the
backend (`backendResult` is `uploadToBackend`'s return value: a resume id on
success, `null` on failure).  Returns the final `files` state and the file
the upload was attempted for, if any. -/
def handleFileUpload (prev : List UploadedFile) (newFiles : List FileInfo)
    (backendResult : Option String) : List UploadedFile × Option FileInfo :=
  match newFiles.filter validatePDF with
  | [] => (prev, none)
  | f :: _ =>
      match backendResult with
      | some _ => ([⟨f.name, f.size, .success, 100⟩], some f)
      | none => ([⟨f.name, f.size, .error, 0⟩], some f)

/-! ## Sample data for concrete instantiations -/

/-- A concrete job record, used to instantiate the theorems below. -/
def sampleJob : JobRecord :=
  { id := "job-1", title := "Software Engineer", company := "Acme",
    location := "Remote", salary := none, postedTime := "today",
    description := "Build things.", url := "https://example.com/jobs/1" }

/-- A concrete scored job, used to instantiate the theorems below. -/
def sampleScored : ScoredJob :=
  { job := sampleJob, skillMatch := 10, experienceMatch := 10,
    educationMatch := 10, overallSub := 10, overallScore := 100,
    analysis := "strong match" }

/-- A concrete two-entry index, used to instantiate the theorems below. -/
def sampleIndex : List IndexEntry :=
  [{ id := "job-1", similarity := 1, recency := 0 },
   { id := "job-2", similarity := 3, recency := 0 }]

/-! ## Helper lemmas -/

/-- Shape of the re-analysis loop's event trace: for some number `n` of
initial consecutive failures, the trace is the `n` error-adjacent events
followed by one terminal event — `terminalDone` if attempt `i + n` succeeds
within budget, `terminalFailed` if the budget is exhausted. -/
lemma analyzeValidateTrace_structure (f : Nat → Bool) (r : List ScoredJob) :
    ∀ b i, ∃ n, n ≤ b ∧ (∀ k, k < n → f (i + k) = false) ∧
      ((f (i + n) = true ∧
          analyzeValidateTrace f r i b =
            ((List.range n).map fun k => PEvent.selectorError (i + k))
              ++ [PEvent.terminalDone r])
       ∨ (f (i + n) = false ∧ n = b ∧
          analyzeValidateTrace f r i b =
            ((List.range n).map fun k => PEvent.selectorError (i + k))
              ++ [PEvent.terminalFailed "selector validation failed"])) := by
  intro b
  induction b with
  | zero =>
      intro i
      refine ⟨0, le_rfl, fun k hk => absurd hk (Nat.not_lt_zero k), ?_⟩
      cases h : f i with
      | true => exact Or.inl ⟨by simpa using h, by simp [analyzeValidateTrace, h]⟩
      | false => exact Or.inr ⟨by simpa using h, rfl, by simp [analyzeValidateTrace, h]⟩
  | succ b ih =>
      intro i
      cases h : f i with
      | true =>
          refine ⟨0, Nat.zero_le _, fun k hk => absurd hk (Nat.not_lt_zero k), ?_⟩
          exact Or.inl ⟨by simpa using h, by simp [analyzeValidateTrace, h]⟩
      | false =>
          obtain ⟨n, hn, hfk, hcase⟩ := ih (i + 1)
          have hfun : ((fun k => PEvent.selectorError (i + k)) ∘ Nat.succ)
              = fun k => PEvent.selectorError (i + 1 + k) := by
            funext k
            show PEvent.selectorError (i + Nat.succ k) = PEvent.selectorError (i + 1 + k)
            congr 1
            omega
          have hmap : (List.range (n + 1)).map (fun k => PEvent.selectorError (i + k))
              = PEvent.selectorError i ::
                  (List.range n).map (fun k => PEvent.selectorError (i + 1 + k)) := by
            rw [List.range_succ_eq_map, List.map_cons, List.map_map, hfun]
            simp
          refine ⟨n + 1, Nat.succ_le_succ hn, ?_, ?_⟩
          · intro k hk
            cases k with
            | zero => simpa using h
            | succ m =>
                have hm := hfk m (Nat.lt_of_succ_lt_succ hk)
                have e : i + (m + 1) = i + 1 + m := by omega
                rw [e]
                exact hm
          · have e : i + (n + 1) = i + 1 + n := by omega
            rcases hcase with ⟨hT, htr⟩ | ⟨hT, hnb, htr⟩
            · refine Or.inl ⟨by rw [e]; exact hT, ?_⟩
              rw [hmap]
              show (if f i = true then [PEvent.terminalDone r]
                else PEvent.selectorError i :: analyzeValidateTrace f r (i + 1) b) = _
              rw [if_neg (by simp [h]), htr]
              rfl
            · refine Or.inr ⟨by rw [e]; exact hT, by omega, ?_⟩
              rw [hmap]
              show (if f i = true then [PEvent.terminalDone r]
                else PEvent.selectorError i :: analyzeValidateTrace f r (i + 1) b) = _
              rw [if_neg (by simp [h]), htr]
              rfl

/-- `analyzeValidateTrace_structure` specialised to a run starting at the
first attempt. -/
lemma analyzeValidateTrace_run (f : Nat → Bool) (r : List ScoredJob) (b : Nat) :
    ∃ n, n ≤ b ∧ (∀ k, k < n → f k = false) ∧
      ((f n = true ∧ analyzeValidateTrace f r 0 b
          = (List.range n).map PEvent.selectorError ++ [PEvent.terminalDone r])
       ∨ (f n = false ∧ n = b ∧ analyzeValidateTrace f r 0 b
          = (List.range n).map PEvent.selectorError
              ++ [PEvent.terminalFailed "selector validation failed"])) := by
  obtain ⟨n, hn, hfk, hcase⟩ := analyzeValidateTrace_structure f r b 0
  have hm : ((List.range n).map fun k => PEvent.selectorError (0 + k))
      = (List.range n).map PEvent.selectorError := by
    simp
  refine ⟨n, hn, fun k hk => by simpa using hfk k hk, ?_⟩
  rcases hcase with ⟨hT, htr⟩ | ⟨hT, hnb, htr⟩
  · exact Or.inl ⟨by simpa using hT, by rw [htr, hm]⟩
  · exact Or.inr ⟨by simpa using hT, hnb, by rw [htr, hm]⟩

/-- Indexing into a mapped range of events. -/
lemma range_map_getElem (g : Nat → PEvent) (n j : Nat) (hj : j < n) :
    ((List.range n).map g)[j]? = some (g j) := by
  rw [List.getElem?_map, List.getElem?_range hj]
  rfl

/-- Indexing left of the appended terminal event. -/
lemma getElem_append_left (L : List PEvent) (e : PEvent) (j : Nat)
    (hj : j < L.length) : (L ++ [e])[j]? = L[j]? := by
  rw [List.getElem?_append]
  exact if_pos hj

/-- The re-analysis loop performs at most as many Analyzer re-invocations as
its remaining budget allows. -/
lemma reanalysisOutcome_count_le (f : Nat → Bool) :
    ∀ b i, (reanalysisOutcome f i b).2 ≤ b := by
  intro b
  induction b with
  | zero => intro i; simp [reanalysisOutcome]
  | succ b ih =>
      intro i
      cases h : f i with
      | true => simp [reanalysisOutcome, h]
      | false =>
          have := ih (i + 1)
          simp [reanalysisOutcome, h]
          omega

/-- If every attempt before the budget's end fails and the attempt at the
budget's end succeeds, the loop ends in `done`. -/
lemma reanalysisOutcome_done (f : Nat → Bool) :
    ∀ b i, (∀ j, j < b → f (i + j) = false) → f (i + b) = true →
      (reanalysisOutcome f i b).1 = RunOutcome.done := by
  intro b
  induction b with
  | zero =>
      intro i _ hs
      have : f i = true := by simpa using hs
      simp [reanalysisOutcome, this]
  | succ b ih =>
      intro i hf hs
      have h0 : f i = false := by simpa using hf 0 (Nat.succ_pos b)
      have hrec : (reanalysisOutcome f (i + 1) b).1 = RunOutcome.done := by
        refine ih (i + 1) (fun j hj => ?_) ?_
        · have := hf (j + 1) (by omega)
          rwa [show i + (j + 1) = i + 1 + j by omega] at this
        · rwa [show i + (b + 1) = i + 1 + b by omega] at hs
      simp [reanalysisOutcome, h0, hrec]

/-- The pagination loop processes at most as many pages as its budget. -/
lemma browseLoop_le (hasNext : Nat → Bool) (accepted : Nat → Nat) :
    ∀ budget page streak, browseLoop hasNext accepted page streak budget ≤ budget := by
  intro budget
  induction budget with
  | zero => intro p s; simp [browseLoop]
  | succ b ih =>
      intro p s
      simp only [browseLoop]
      split
      · split
        · have := ih (p + 1) (s + 1)
          omega
        · omega
      · split
        · have := ih (p + 1) 0
          omega
        · omega

/-- Publishing preserves the publisher invariant: every stored ordinal is
below the counter, and ordinals are pairwise increasing in emission order. -/
lemma publishAll_invariant (msgs : List (String × String × String)) :
    ∀ s : PublisherState,
      (∀ e ∈ s.events, e.ordinal < s.nextOrdinal) →
      List.Pairwise (fun e1 e2 => e1.ordinal < e2.ordinal) s.events →
      List.Pairwise (fun e1 e2 => e1.ordinal < e2.ordinal) (publishAll s msgs).events := by
  induction msgs with
  | nil => intro s _ h2; exact h2
  | cons m ms ih =>
      intro s h1 h2
      refine ih (emitEvent s m.1 m.2.1 m.2.2) ?_ ?_
      · intro e he
        simp only [emitEvent] at he ⊢
        rcases List.mem_append.1 he with h | h
        · exact Nat.lt_succ_of_lt (h1 e h)
        · obtain rfl := List.mem_singleton.1 h
          exact Nat.lt_succ_self _
      · simp only [emitEvent]
        refine List.pairwise_append.2 ⟨h2, List.pairwise_singleton _ _, ?_⟩
        intro a ha b hb
        obtain rfl := List.mem_singleton.1 hb
        exact h1 a ha

/-- Everything after the first `[DONE]` marker is ignored by the frontend
stream loop. -/
lemma processLines_append_done (c : Int) :
    ∀ (pre : List SSEData) (s : WidgetState) (post : List SSEData),
      SSEData.done ∉ pre →
      processLines c s (pre ++ SSEData.done :: post) = processLines c s pre := by
  intro pre
  induction pre with
  | nil => intro s post _; simp [processLines]
  | cons e es ih =>
      intro s post h
      have h1 : SSEData.done ∉ es := fun hm => h (List.mem_cons_of_mem _ hm)
      cases e with
      | done => exact absurd (List.mem_cons_self _ _) h
      | result d =>
          show processLines c (stepWidget c s (SSEData.result d)) (es ++ SSEData.done :: post)
            = processLines c (stepWidget c s (SSEData.result d)) es
          exact ih _ post h1
      | progressUpdate a b st msg =>
          show processLines c (stepWidget c s (SSEData.progressUpdate a b st msg))
              (es ++ SSEData.done :: post)
            = processLines c (stepWidget c s (SSEData.progressUpdate a b st msg)) es
          exact ih _ post h1

/-! ## Claim theorems -/

/-- C1: for every scored job, the composite score equals the weighted sum of
the four sub-scores with weights skills 0.4, experience 0.3, education 0.2,
overall 0.1, normalised from the 0–10 sub-score scale to 0–100 (so the
composite is `4·sk + 3·ex + 2·ed + ov`, lands in `[0, 100]` when the
sub-scores are in `[0, 10]`); in particular sub-scores `(10,10,10,10)` give
composite exactly `100` and `(0,0,0,0)` give exactly `0`. -/
theorem composite_is_weighted_sum (j : JobRecord) (sk ex ed ov : ℚ) (a : String) :
    (mkScoredJob j sk ex ed ov a).overallScore = 4 * sk + 3 * ex + 2 * ed + ov
  ∧ (0 ≤ sk ∧ sk ≤ 10 → 0 ≤ ex ∧ ex ≤ 10 → 0 ≤ ed ∧ ed ≤ 10 → 0 ≤ ov ∧ ov ≤ 10 →
      0 ≤ (mkScoredJob j sk ex ed ov a).overallScore
      ∧ (mkScoredJob j sk ex ed ov a).overallScore ≤ 100)
  ∧ (mkScoredJob j 10 10 10 10 a).overallScore = 100
  ∧ (mkScoredJob j 0 0 0 0 a).overallScore = 0 := by
  have hcs : ∀ s e d o : ℚ, compositeScore s e d o = 4 * s + 3 * e + 2 * d + o := by
    intro s e d o
    unfold compositeScore
    ring
  refine ⟨hcs sk ex ed ov, ?_, ?_, ?_⟩
  · intro h1 h2 h3 h4
    constructor
    · show (0 : ℚ) ≤ compositeScore sk ex ed ov
      rw [hcs]
      linarith [h1.1, h2.1, h3.1, h4.1]
    · show compositeScore sk ex ed ov ≤ 100
      rw [hcs]
      linarith [h1.2, h2.2, h3.2, h4.2]
  · show compositeScore 10 10 10 10 = 100
    rw [hcs]
    norm_num
  · show compositeScore 0 0 0 0 = 0
    rw [hcs]
    norm_num

/-- Witness for C1 at concrete sub-scores `(5, 6, 7, 8)`. -/
theorem composite_is_weighted_sum_witness :
    0 ≤ (mkScoredJob sampleJob 5 6 7 8 "fits well").overallScore
    ∧ (mkScoredJob sampleJob 5 6 7 8 "fits well").overallScore ≤ 100 :=
  (composite_is_weighted_sum sampleJob 5 6 7 8 "fits well").2.1
    (by norm_num) (by norm_num) (by norm_num) (by norm_num)

/-- C2: in every run the Orchestrator re-invokes the Analyzer at most
`maxReanalysis` times, whatever the validation outcomes; and a run whose
first `maxReanalysis` attempts all fail validation but whose next attempt
succeeds ends in `done`, not `failed`. -/
theorem reanalysis_bounded_then_done (maxReanalysis : Nat) (attemptOK : Nat → Bool) :
    (reanalysisOutcome attemptOK 0 maxReanalysis).2 ≤ maxReanalysis
  ∧ ((∀ i, i < maxReanalysis → attemptOK i = false) →
      attemptOK maxReanalysis = true →
      (reanalysisOutcome attemptOK 0 maxReanalysis).1 = RunOutcome.done) := by
  refine ⟨reanalysisOutcome_count_le attemptOK maxReanalysis 0, fun hf hs => ?_⟩
  refine reanalysisOutcome_done attemptOK maxReanalysis 0 (fun j hj => ?_) ?_
  · simpa using hf j hj
  · simpa using hs

/-- Witness for C2 with `maxReanalysis = 2` and an oracle failing attempts 0
and 1 and succeeding on attempt 2. -/
theorem reanalysis_bounded_then_done_witness :
    (reanalysisOutcome (fun i => decide (2 ≤ i)) 0 2).2 ≤ 2
    ∧ (reanalysisOutcome (fun i => decide (2 ≤ i)) 0 2).1 = RunOutcome.done :=
  ⟨(reanalysis_bounded_then_done 2 (fun i => decide (2 ≤ i))).1,
   (reanalysis_bounded_then_done 2 (fun i => decide (2 ≤ i))).2
     (by decide) (by decide)⟩

/-- C3: for every behaviour of the page — including one that reports an
available "next" control on every page — the pagination loop stops after
processing at most `maxPages` pages. -/
theorem pagination_stops_by_maxPages (hasNext : Nat → Bool)
    (accepted : Nat → Nat) (maxPages : Nat) :
    pagesProcessed hasNext accepted maxPages ≤ maxPages :=
  browseLoop_le hasNext accepted maxPages 0 0

/-- C4: in every run the step ordinals of the emitted ProgressEvent sequence
are strictly increasing: any event emitted earlier has a strictly smaller
ordinal than any event emitted later. -/
theorem progressEvent_ordinals_strictMono (runId : String)
    (msgs : List (String × String × String)) :
    List.Pairwise (fun e1 e2 => e1.ordinal < e2.ordinal)
      (publishAll (initPublisher runId) msgs).events :=
  publishAll_invariant msgs (initPublisher runId)
    (by intro e he; simp [initPublisher] at he) (by simp [initPublisher])

/-- C5: the terminal event is the last event of the run's progress stream —
it carries either the final ranked `ScoredJob` list or a terminal error
descriptor, every earlier event is a non-terminal selector-error event — and
the consumer stops at the terminal marker: the frontend loop ignores
everything after `[DONE]`, and a `result` event sets the displayed progress
to 100 and marks every task completed. -/
theorem terminal_event_is_last (f : Nat → Bool) (jobs : List ScoredJob)
    (topN m : Nat) :
    (∃ e, (analyzeValidateTrace f (rankJobs jobs topN) 0 m).getLast? = some e
        ∧ (e = PEvent.terminalDone (rankJobs jobs topN)
           ∨ ∃ msg, e = PEvent.terminalFailed msg))
  ∧ (∀ j, j + 1 < (analyzeValidateTrace f (rankJobs jobs topN) 0 m).length →
        ∃ k, (analyzeValidateTrace f (rankJobs jobs topN) 0 m)[j]?
          = some (PEvent.selectorError k))
  ∧ (∀ (c : Int) (s : WidgetState) (pre post : List SSEData),
        SSEData.done ∉ pre →
        processLines c s (pre ++ SSEData.done :: post) = processLines c s pre)
  ∧ (∀ (c : Int) (s : WidgetState) (data : String),
        (stepWidget c s (SSEData.result data)).progress = 100
        ∧ ∀ ts ∈ (stepWidget c s (SSEData.result data)).tasks,
            ts = TaskStatus.completed) := by
  obtain ⟨n, hn, hfk, hcase⟩ := analyzeValidateTrace_run f (rankJobs jobs topN) m
  refine ⟨?_, ?_, fun c s pre post h => processLines_append_done c pre s post h, ?_⟩
  · rcases hcase with ⟨_, htr⟩ | ⟨_, _, htr⟩
    · exact ⟨_, by rw [htr]; exact List.getLast?_concat _, Or.inl rfl⟩
    · exact ⟨_, by rw [htr]; exact List.getLast?_concat _, Or.inr ⟨_, rfl⟩⟩
  · intro j hj
    have hsplit : ∃ e, analyzeValidateTrace f (rankJobs jobs topN) 0 m
        = (List.range n).map PEvent.selectorError ++ [e] := by
      rcases hcase with ⟨_, htr⟩ | ⟨_, _, htr⟩
      · exact ⟨_, htr⟩
      · exact ⟨_, htr⟩
    obtain ⟨e, htr⟩ := hsplit
    have hlen : (analyzeValidateTrace f (rankJobs jobs topN) 0 m).length = n + 1 := by
      rw [htr]; simp
    have hjn : j < n := by omega
    refine ⟨j, ?_⟩
    rw [htr, getElem_append_left _ _ _ (by simpa using hjn)]
    exact range_map_getElem _ _ _ hjn
  · intro c s data
    refine ⟨rfl, ?_⟩
    intro ts hts
    simp only [stepWidget, List.mem_map] at hts
    obtain ⟨x, _, rfl⟩ := hts
    rfl

/-- Witness for C5: with one `result` line before the `[DONE]` marker, the
lines after the marker do not change the final widget state. -/
theorem terminal_event_is_last_witness :
    processLines 0 initWidget
        ([SSEData.result "payload"] ++ SSEData.done :: [SSEData.result "late"])
      = processLines 0 initWidget [SSEData.result "payload"] :=
  (terminal_event_is_last (fun _ => true) [] 10 2).2.2.1 0 initWidget
    [SSEData.result "payload"] [SSEData.result "late"] (by decide)

/-- C6: the final output is the scored jobs sorted by composite score
descending with ties broken by the skills score, truncated to the top-N:
every adjacent pair `(a, b)` satisfies `composite b < composite a` or
`composite a = composite b ∧ skills b ≤ skills a`, the output holds at most
`topN` entries, and every output entry is one of the scored jobs. -/
theorem ranked_output_sorted_truncated (jobs : List ScoredJob) (topN : Nat) :
    List.Chain' (fun a b => b.overallScore < a.overallScore
        ∨ (a.overallScore = b.overallScore ∧ b.skillMatch ≤ a.skillMatch))
      (rankJobs jobs topN)
  ∧ (rankJobs jobs topN).length ≤ topN
  ∧ ∀ x ∈ rankJobs jobs topN, x ∈ jobs := by
  refine ⟨?_, ?_, ?_⟩
  · have hs : List.Pairwise scoredJobRank (List.insertionSort scoredJobRank jobs) :=
      List.sorted_insertionSort scoredJobRank jobs
    have ht : List.Pairwise scoredJobRank (rankJobs jobs topN) :=
      List.Pairwise.sublist (List.take_sublist topN _) hs
    exact ht.chain'
  · exact List.length_take_le topN _
  · intro x hx
    have hx2 : x ∈ List.insertionSort scoredJobRank jobs := List.mem_of_mem_take hx
    exact ((List.perm_insertionSort scoredJobRank jobs).mem_iff).1 hx2

/-- Witness for C6 on a concrete singleton ranking. -/
theorem ranked_output_sorted_truncated_witness :
    sampleScored ∈ [sampleScored] :=
  (ranked_output_sorted_truncated [sampleScored] 10).2.2 sampleScored
    (show sampleScored ∈ [sampleScored] from List.mem_singleton.2 rfl)

/-- C7: a Retrieval Engine query with `K = 50` against an index holding
fewer than 50 embeddings returns all of them (a permutation of the index),
ranked by similarity, and a query over the empty index returns the empty
list — an ordinary value, not an error. -/
theorem query_small_index_returns_all (entries : List IndexEntry)
    (h : entries.length < 50) :
    (queryIndex entries 50).Perm entries
  ∧ List.Pairwise similarityRank (queryIndex entries 50)
  ∧ queryIndex ([] : List IndexEntry) 50 = [] := by
  have hlen : (List.insertionSort similarityRank entries).length ≤ 50 := by
    rw [(List.perm_insertionSort similarityRank entries).length_eq]
    omega
  have htake : queryIndex entries 50 = List.insertionSort similarityRank entries := by
    unfold queryIndex
    exact List.take_of_length_le hlen
  refine ⟨?_, ?_, rfl⟩
  · rw [htake]
    exact List.perm_insertionSort similarityRank entries
  · rw [htake]
    exact List.sorted_insertionSort similarityRank entries

/-- Witness for C7 on a concrete two-entry index. -/
theorem query_small_index_returns_all_witness :
    sampleIndex.length < 50 ∧ (queryIndex sampleIndex 50).Perm sampleIndex :=
  ⟨by decide, (query_small_index_returns_all sampleIndex (by decide)).1⟩

/-- C8: no recoverable failure is silently swallowed: in the run's trace,
every event before the terminal one is the error-adjacent event of a failed
attempt (so every retry was preceded by an error event), every failure the
loop reaches and retries has its error event in the trace before the
terminal event, and the frontend surfaces an `error`-status event by setting
the widget's error state to the event's message. -/
theorem recoverable_failures_emit_error_events (m : Nat) (f : Nat → Bool)
    (r : List ScoredJob) :
    (∀ j, j + 1 < (analyzeValidateTrace f r 0 m).length →
        (analyzeValidateTrace f r 0 m)[j]? = some (PEvent.selectorError j)
        ∧ f j = false)
  ∧ (∀ j, j < m → (∀ i, i ≤ j → f i = false) →
        (analyzeValidateTrace f r 0 m)[j]? = some (PEvent.selectorError j)
        ∧ j + 1 < (analyzeValidateTrace f r 0 m).length)
  ∧ (∀ (c : Int) (s : WidgetState) (a b : Option Nat) (msg : String),
        (stepWidget c s (SSEData.progressUpdate a b "error" (some msg))).error
          = some msg) := by
  obtain ⟨n, hn, hfk, hcase⟩ := analyzeValidateTrace_run f r m
  have hsplit : ∃ e, analyzeValidateTrace f r 0 m
      = (List.range n).map PEvent.selectorError ++ [e] := by
    rcases hcase with ⟨_, htr⟩ | ⟨_, _, htr⟩
    · exact ⟨_, htr⟩
    · exact ⟨_, htr⟩
  obtain ⟨e, htr⟩ := hsplit
  have hlen : (analyzeValidateTrace f r 0 m).length = n + 1 := by
    rw [htr]; simp
  have hidx : ∀ j, j < n →
      (analyzeValidateTrace f r 0 m)[j]? = some (PEvent.selectorError j) := by
    intro j hj
    rw [htr, getElem_append_left _ _ _ (by simpa using hj)]
    exact range_map_getElem _ _ _ hj
  refine ⟨?_, ?_, ?_⟩
  · intro j hj
    have hjn : j < n := by omega
    exact ⟨hidx j hjn, hfk j hjn⟩
  · intro j hjm hf
    have hjn : j < n := by
      by_contra hc
      push_neg at hc
      rcases hcase with ⟨hT, _⟩ | ⟨_, hnb, _⟩
      · have := hf n hc
        rw [this] at hT
        exact Bool.false_ne_true hT
      · omega
    exact ⟨hidx j hjn, by omega⟩
  · intro c s a b msg
    simp [stepWidget]

/-- Witness for C8: the first failed attempt's error event is at trace
position 0, and an `error`-status SSE event sets the widget's error. -/
theorem recoverable_failures_emit_error_events_witness :
    (analyzeValidateTrace (fun i => decide (2 ≤ i)) [] 0 2)[0]?
      = some (PEvent.selectorError 0)
  ∧ (stepWidget 0 initWidget
      (SSEData.progressUpdate (some 1) (some 4) "error" (some "boom"))).error
      = some "boom" :=
  ⟨((recoverable_failures_emit_error_events 2 (fun i => decide (2 ≤ i)) []).2.1
      0 (by decide) (by decide)).1,
   (recoverable_failures_emit_error_events 2 (fun i => decide (2 ≤ i)) []).2.2
      0 initWidget (some 1) (some 4) "boom"⟩

/-- C9: the backend upload is attempted only for a file that passes
`validatePDF` — lowercased name ending in `.pdf` and size at most
`10485760` bytes; a call in which no file passes validation leaves the
uploaded-file list unchanged; and after any attempted upload the list holds
exactly one entry. -/
theorem upload_validates_pdf_and_keeps_one (prev : List UploadedFile)
    (newFiles : List FileInfo) (r : Option String) :
    (∀ f : FileInfo, validatePDF f = true
        ↔ lowercaseEndsWithPdf f.name = true ∧ f.size ≤ 10485760)
  ∧ (∀ f, (handleFileUpload prev newFiles r).2 = some f →
        validatePDF f = true ∧ f ∈ newFiles)
  ∧ ((∀ g ∈ newFiles, validatePDF g = false) →
      (handleFileUpload prev newFiles r).1 = prev
      ∧ (handleFileUpload prev newFiles r).2 = none)
  ∧ (∀ f, (handleFileUpload prev newFiles r).2 = some f →
        (handleFileUpload prev newFiles r).1.length = 1) := by
  have hval : ∀ f : FileInfo, validatePDF f = true
      ↔ lowercaseEndsWithPdf f.name = true ∧ f.size ≤ 10485760 := by
    intro f
    unfold validatePDF
    by_cases hE : lowercaseEndsWithPdf f.name = true
    · by_cases hS : f.size > 10 * 1024 * 1024
      · simp [hE, hS]
      · simp [hE, hS]
        omega
    · simp [hE]
  refine ⟨hval, ?_, ?_, ?_⟩
  · intro f hf
    cases hfil : newFiles.filter validatePDF with
    | nil =>
        unfold handleFileUpload at hf
        rw [hfil] at hf
        simp at hf
    | cons g gs =>
        unfold handleFileUpload at hf
        rw [hfil] at hf
        have hg : g ∈ newFiles.filter validatePDF := by
          rw [hfil]
          exact List.mem_cons_self g gs
        have hprops := List.mem_filter.1 hg
        have hgf : g = f := by
          cases r with
          | none => simpa using hf
          | some _ => simpa using hf
        rw [← hgf]
        exact ⟨hprops.2, hprops.1⟩
  · intro hall
    have hfil : newFiles.filter validatePDF = [] := by
      refine List.filter_eq_nil_iff.2 ?_
      intro a ha
      simp [hall a ha]
    unfold handleFileUpload
    rw [hfil]
    exact ⟨rfl, rfl⟩
  · intro f hf
    cases hfil : newFiles.filter validatePDF with
    | nil =>
        unfold handleFileUpload at hf
        rw [hfil] at hf
        simp at hf
    | cons g gs =>
        unfold handleFileUpload
        rw [hfil]
        cases r with
        | none => rfl
        | some _ => rfl

/-- Witness for C9: a valid upper-case `.PDF` upload yields a singleton
list; a `.txt`-only call leaves the (empty) list unchanged. -/
theorem upload_validates_pdf_and_keeps_one_witness :
    (handleFileUpload [] [⟨"Resume.PDF", 100⟩] (some "resume-1")).1.length = 1
  ∧ (handleFileUpload [] [⟨"resume.txt", 5⟩] none).1 = []
  ∧ validatePDF ⟨"Resume.PDF", 100⟩ = true :=
  ⟨(upload_validates_pdf_and_keeps_one [] [⟨"Resume.PDF", 100⟩]
      (some "resume-1")).2.2.2 ⟨"Resume.PDF", 100⟩ (by decide),
   ((upload_validates_pdf_and_keeps_one [] [⟨"resume.txt", 5⟩] none).2.2.1
      (by decide)).1,
   ((upload_validates_pdf_and_keeps_one [] [⟨"Resume.PDF", 100⟩] none).1
      ⟨"Resume.PDF", 100⟩).2 (by decide)⟩

/-- C10 is false of the code: the effect closure captures `progress = 0`
once at mount, so `Math.max(progress, newProgress)` compares against the
stale captured value rather than the currently displayed one, and a later
event can lower the displayed percentage — here from 50 after a
`(step 2/4, completed)` event down to 40 after a following
`(step 2/4, processing)` event. -/
theorem displayed_progress_can_decrease :
    (startSearch [SSEData.progressUpdate (some 2) (some 4) "completed"
        (some "Found 15 jobs")]).progress = 50
  ∧ (startSearch [SSEData.progressUpdate (some 2) (some 4) "completed"
        (some "Found 15 jobs"),
      SSEData.progressUpdate (some 2) (some 4) "processing"
        (some "Scoring jobs")]).progress = 40
  ∧ (40 : Int) < 50 := by
  refine ⟨?_, ?_, by norm_num⟩
  · simp [startSearch, processLines, stepWidget, newProgressOf, jsOrNat, jsOrStr,
      initWidget, updateTasks]
    norm_num [round_eq]
  · simp [startSearch, processLines, stepWidget, newProgressOf, jsOrNat, jsOrStr,
      initWidget, updateTasks]
    norm_num [round_eq]

end AgentJobSearch
